import Mathlib

/-!
Verification development for the submission-preparation engine in
`aiida_cusp/calculators/calculation_base.py`.

The Python module is embedded shallowly:

* Remote and staging paths are lists of path segments (`List String`); the
  segment `"."` plays the role of the current-directory component that
  `pathlib.Path` normalises away.
* The remote directory tree seen through the `RemoteData` transport is the
  inductive type `RNode`; a listing request (`remote_data.listdir`) on a
  file node fails with the "not a directory" `OSError` signal, while a
  transport-broken node fails with a transport-level error that is not an
  `OSError` and therefore escapes the `except OSError` handler in
  `remote_filelist`.
* Fallible code returns `Except`; Python exceptions propagate as `.error`.
-/

namespace CalcBase

/-- Drop every `"."` segment of a path, embedding the normalisation that
`pathlib.Path` applies to current-directory components on construction. -/
def pdot (p : List String) : List String := p.filter (fun s => s ≠ ".")

/-- Embedding of `str(pathlib.Path(p))` on a relative path: `"."` segments
disappear, except that the empty result renders as the single segment `"."`. -/
def pnorm (p : List String) : List String := if pdot p = [] then ["."] else pdot p

theorem pdot_append (p q : List String) : pdot (p ++ q) = pdot p ++ pdot q := by
  simp [pdot, List.filter_append]

theorem pdot_pdot (p : List String) : pdot (pdot p) = pdot p := by
  simp [pdot, List.filter_filter]

theorem pdot_pnorm (p : List String) : pdot (pnorm p) = pdot p := by
  unfold pnorm
  by_cases h : pdot p = []
  · rw [if_pos h, h]; rfl
  · rw [if_neg h, pdot_pdot]

theorem pnorm_congr {p q : List String} (h : pdot p = pdot q) : pnorm p = pnorm q := by
  simp [pnorm, h]

theorem pnorm_pnorm (p : List String) : pnorm (pnorm p) = pnorm p := by
  have h := pnorm_congr (pdot_pnorm p)
  exact h

theorem dot_not_mem_pdot (p : List String) : "." ∉ pdot p := by
  intro h
  simp [pdot, List.mem_filter] at h

/-- A path in canonical `pnorm` form is either the bare current directory
`["."]` or mentions no `"."` segment at all. -/
theorem pnorm_shape (p : List String) : pnorm p = ["."] ∨ "." ∉ pnorm p := by
  unfold pnorm
  by_cases h : pdot p = []
  · left; simp [h]
  · right; simp [h]; exact dot_not_mem_pdot p

mutual

/-- A node of the remote directory tree, as observable through the
`listdir` transport operation used by `remote_filelist`: a plain file
(listing it raises the "not a directory" `OSError`), a directory with a
listing, or a directory whose listing fails with a transport-level error. -/
inductive RNode : Type where
  | file : RNode
  | tdir : RNode
  | dir : REntries → RNode

/-- The named entries of a remote directory, in listing order. -/
inductive REntries : Type where
  | nil : REntries
  | cons : String → RNode → REntries → REntries

end

/-- Names of the entries of a directory listing, in order. -/
def names : REntries → List String
  | .nil => []
  | .cons n _ rest => n :: names rest

/-- One element of the list built by `remote_filelist`: the Python tuple
`(filename, absolute_path_on_remote, relative_path_without_filename)`. -/
structure FileEntry where
  name : String
  abspath : List String
  relpath : List String
deriving DecidableEq, Repr

/-- Outcome of a failed listing: the "not a directory" `OSError` caught by
`remote_filelist`, or a transport-level failure that is not an `OSError`
(the spec's `RemoteAccessError`) and aborts the whole synchronization. -/
inductive RErr : Type where
  | notADir : RErr
  | transport : RErr
deriving DecidableEq, Repr

mutual

/-- Embedding of `CalculationBase.remote_filelist(remote_data, relpath)`.
`root` is `remote_data.get_remote_path()` as segments. Listing a file node
raises the "not a directory" `OSError`; listing a transport-broken node
raises a transport error; listing a directory yields its entries, which
`remote_filelist_loop` then walks exactly as the Python `for` loop does. -/
def remote_filelist (root : List String) : RNode → List String → Except RErr (List FileEntry)
  | .file, _ => .error .notADir
  | .tdir, _ => .error .transport
  | .dir es, relpath => remote_filelist_loop root es relpath

/-- The body of the `for path in remote_data.listdir(relpath=relpath)` loop of
`remote_filelist`, threading the `relpath` variable through the iterations
because the `except OSError` branch reassigns it
(`relpath = str(pathlib.Path(relpath))`) mid-loop. -/
def remote_filelist_loop (root : List String) : REntries → List String → Except RErr (List FileEntry)
  | .nil, _ => .ok []
  | .cons name child rest, relpath =>
    match remote_filelist root child (relpath ++ [name]) with
    | .ok files =>
      match remote_filelist_loop root rest relpath with
      | .ok l => .ok (files ++ l)
      | .error e => .error e
    | .error .notADir =>
      match remote_filelist_loop root rest (pnorm relpath) with
      | .ok l =>
        .ok ({ name := name,
               abspath := root ++ pdot (relpath ++ [name]),
               relpath := pnorm relpath } :: l)
      | .error e => .error e
    | .error .transport => .error .transport

end

mutual

/-- Reference traversal written from the spec: identical to
`remote_filelist` except that the relative-directory recorded for each file
is a pure per-entry computation — the loop variable `relpath` is never
reassigned, so no cross-entry state exists. -/
def remote_filelist_ref (root : List String) : RNode → List String → Except RErr (List FileEntry)
  | .file, _ => .error .notADir
  | .tdir, _ => .error .transport
  | .dir es, relpath => remote_filelist_ref_loop root es relpath

/-- Loop of the reference traversal: the continuation for the remaining
sibling entries receives the unchanged `relpath`. -/
def remote_filelist_ref_loop (root : List String) : REntries → List String → Except RErr (List FileEntry)
  | .nil, _ => .ok []
  | .cons name child rest, relpath =>
    match remote_filelist_ref root child (relpath ++ [name]) with
    | .ok files =>
      match remote_filelist_ref_loop root rest relpath with
      | .ok l => .ok (files ++ l)
      | .error e => .error e
    | .error .notADir =>
      match remote_filelist_ref_loop root rest relpath with
      | .ok l =>
        .ok ({ name := name,
               abspath := root ++ pdot (relpath ++ [name]),
               relpath := pnorm relpath } :: l)
      | .error e => .error e
    | .error .transport => .error .transport

end

example :
    remote_filelist ["r"]
      (.dir (.cons "a" (.dir (.cons "CONTCAR" .file (.cons "OUTCAR" .file .nil)))
        (.cons "b" (.dir (.cons "job_tmpl.json" .file .nil)) .nil))) ["."]
      = .ok [ { name := "CONTCAR", abspath := ["r", "a", "CONTCAR"], relpath := ["a"] },
              { name := "OUTCAR", abspath := ["r", "a", "OUTCAR"], relpath := ["a"] },
              { name := "job_tmpl.json", abspath := ["r", "b", "job_tmpl.json"], relpath := ["b"] } ] := by
  rfl

mutual

theorem remote_filelist_pdot_congr (root : List String) :
    ∀ (t : RNode) (p q : List String), pdot p = pdot q →
      remote_filelist root t p = remote_filelist root t q
  | .file, _, _, _ => rfl
  | .tdir, _, _, _ => rfl
  | .dir es, p, q, h => remote_filelist_loop_pdot_congr root es p q h

theorem remote_filelist_loop_pdot_congr (root : List String) :
    ∀ (es : REntries) (p q : List String), pdot p = pdot q →
      remote_filelist_loop root es p = remote_filelist_loop root es q
  | .nil, _, _, _ => rfl
  | .cons name child rest, p, q, h => by
    have hsub : pdot (p ++ [name]) = pdot (q ++ [name]) := by
      rw [pdot_append, pdot_append, h]
    have hc := remote_filelist_pdot_congr root child (p ++ [name]) (q ++ [name]) hsub
    have hr := remote_filelist_loop_pdot_congr root rest p q h
    have hrn := remote_filelist_loop_pdot_congr root rest (pnorm p) (pnorm q)
      (by rw [pdot_pnorm, pdot_pnorm, h])
    have hpn : pnorm p = pnorm q := pnorm_congr h
    simp only [remote_filelist_loop]
    rw [hc]
    cases remote_filelist root child (q ++ [name]) with
    | ok files => rw [hr]
    | error e =>
      cases e with
      | notADir => rw [hrn, hpn, hsub]
      | transport => rfl

end

mutual

theorem remote_filelist_eq_ref (root : List String) :
    ∀ (t : RNode) (p : List String),
      remote_filelist root t p = remote_filelist_ref root t p
  | .file, _ => rfl
  | .tdir, _ => rfl
  | .dir es, p => remote_filelist_loop_eq_ref root es p

theorem remote_filelist_loop_eq_ref (root : List String) :
    ∀ (es : REntries) (p : List String),
      remote_filelist_loop root es p = remote_filelist_ref_loop root es p
  | .nil, _ => rfl
  | .cons name child rest, p => by
    have hc := remote_filelist_eq_ref root child (p ++ [name])
    have hr := remote_filelist_loop_eq_ref root rest p
    have hrn : remote_filelist_loop root rest (pnorm p) = remote_filelist_loop root rest p :=
      remote_filelist_loop_pdot_congr root rest (pnorm p) p (pdot_pnorm p)
    simp only [remote_filelist_loop, remote_filelist_ref_loop]
    rw [hc]
    cases remote_filelist_ref root child (p ++ [name]) with
    | ok files => rw [hr]
    | error e =>
      cases e with
      | notADir => rw [hrn, hr]
      | transport => rfl

end

mutual

/-- Does the tree contain a node whose listing fails at transport level? -/
def hasTdir : RNode → Bool
  | .file => false
  | .tdir => true
  | .dir es => hasTdirEntries es

/-- Entry-list version of `hasTdir`. -/
def hasTdirEntries : REntries → Bool
  | .nil => false
  | .cons _ child rest => hasTdir child || hasTdirEntries rest

end

mutual

theorem remote_filelist_transport (root : List String) :
    ∀ (t : RNode) (p : List String), hasTdir t = true →
      remote_filelist root t p = .error .transport
  | .tdir, _, _ => rfl
  | .file, _, h => by simp [hasTdir] at h
  | .dir es, p, h =>
    remote_filelist_loop_transport root es p (by simpa [hasTdir] using h)

theorem remote_filelist_loop_transport (root : List String) :
    ∀ (es : REntries) (p : List String), hasTdirEntries es = true →
      remote_filelist_loop root es p = .error .transport
  | .nil, _, h => by simp [hasTdirEntries] at h
  | .cons name child rest, p, h => by
    simp only [hasTdirEntries, Bool.or_eq_true] at h
    simp only [remote_filelist_loop]
    cases hcv : hasTdir child with
    | true => rw [remote_filelist_transport root child _ hcv]
    | false =>
      have hrest : hasTdirEntries rest = true := by
        rcases h with h1 | h2
        · rw [hcv] at h1; cases h1
        · exact h2
      cases hc : remote_filelist root child (p ++ [name]) with
      | ok files => rw [remote_filelist_loop_transport root rest p hrest]
      | error e =>
        cases e with
        | notADir => rw [remote_filelist_loop_transport root rest (pnorm p) hrest]
        | transport => rfl

end

mutual

theorem remote_filelist_no_transport (root : List String) :
    ∀ (t : RNode) (p : List String), hasTdir t = false →
      remote_filelist root t p = .error .notADir ∨
        ∃ l, remote_filelist root t p = .ok l
  | .file, _, _ => .inl rfl
  | .tdir, _, h => by simp [hasTdir] at h
  | .dir es, p, h =>
    .inr (remote_filelist_loop_no_transport root es p (by simpa [hasTdir] using h))

theorem remote_filelist_loop_no_transport (root : List String) :
    ∀ (es : REntries) (p : List String), hasTdirEntries es = false →
      ∃ l, remote_filelist_loop root es p = .ok l
  | .nil, _, _ => ⟨[], rfl⟩
  | .cons name child rest, p, h => by
    have h' : hasTdir child = false ∧ hasTdirEntries rest = false := by
      simpa [hasTdirEntries] using h
    obtain ⟨h1, h2⟩ := h'
    simp only [remote_filelist_loop]
    rcases remote_filelist_no_transport root child (p ++ [name]) h1 with hc | ⟨lc, hc⟩
    · rw [hc]
      obtain ⟨l2, hr⟩ := remote_filelist_loop_no_transport root rest (pnorm p) h2
      rw [hr]
      exact ⟨_, rfl⟩
    · rw [hc]
      obtain ⟨l2, hr⟩ := remote_filelist_loop_no_transport root rest p h2
      rw [hr]
      exact ⟨_, rfl⟩

end

theorem pdot_singleton {name : String} (h : name ≠ ".") : pdot [name] = [name] := by
  simp [pdot, h]

mutual

theorem remote_filelist_ref_relpath_norm (root : List String) :
    ∀ (t : RNode) (p : List String) (l : List FileEntry),
      remote_filelist_ref root t p = .ok l →
      ∀ e ∈ l, e.relpath = pnorm e.relpath
  | .file, _, _, h => by cases h
  | .tdir, _, _, h => by cases h
  | .dir es, p, l, h => remote_filelist_ref_loop_relpath_norm root es p l h

theorem remote_filelist_ref_loop_relpath_norm (root : List String) :
    ∀ (es : REntries) (p : List String) (l : List FileEntry),
      remote_filelist_ref_loop root es p = .ok l →
      ∀ e ∈ l, e.relpath = pnorm e.relpath
  | .nil, p, l, h => by
    simp only [remote_filelist_ref_loop] at h
    cases h
    intro e he
    cases he
  | .cons name child rest, p, l, h => by
    simp only [remote_filelist_ref_loop] at h
    cases hc : remote_filelist_ref root child (p ++ [name]) with
    | ok files =>
      rw [hc] at h
      cases hr : remote_filelist_ref_loop root rest p with
      | ok lrest =>
        rw [hr] at h
        cases h
        intro e he
        rcases List.mem_append.mp he with h1 | h2
        · exact remote_filelist_ref_relpath_norm root child _ files hc e h1
        · exact remote_filelist_ref_loop_relpath_norm root rest p lrest hr e h2
      | error err => rw [hr] at h; cases h
    | error err =>
      rw [hc] at h
      cases err with
      | transport => cases h
      | notADir =>
        cases hr : remote_filelist_ref_loop root rest p with
        | ok lrest =>
          rw [hr] at h
          cases h
          intro e he
          rcases List.mem_cons.mp he with h1 | h2
          · rw [h1]
            exact (pnorm_pnorm p).symm
          · exact remote_filelist_ref_loop_relpath_norm root rest p lrest hr e h2
        | error err2 => rw [hr] at h; cases h

end

mutual

/-- Well-formedness of a remote tree as a real filesystem provides it: the
entries of every directory carry pairwise distinct names and never the
current-directory name `"."`. -/
def wfNode : RNode → Prop
  | .file => True
  | .tdir => True
  | .dir es => (names es).Nodup ∧ "." ∉ names es ∧ wfEntriesP es

/-- All child nodes of a directory listing are well-formed. -/
def wfEntriesP : REntries → Prop
  | .nil => True
  | .cons _ child rest => wfNode child ∧ wfEntriesP rest

end

mutual

theorem remote_filelist_ref_abspath (root : List String) :
    ∀ (t : RNode) (p : List String) (l : List FileEntry),
      wfNode t → remote_filelist_ref root t p = .ok l →
      (l.map FileEntry.abspath).Nodup ∧
        ∀ e ∈ l, ∃ s, s ≠ [] ∧ e.abspath = root ++ pdot p ++ s
  | .file, _, _, _, h => by cases h
  | .tdir, _, _, _, h => by cases h
  | .dir es, p, l, hwf, h => by
    obtain ⟨hnd, hdot, hsub⟩ := hwf
    obtain ⟨h1, h2⟩ := remote_filelist_ref_loop_abspath root es p l hnd hdot hsub h
    refine ⟨h1, fun e he => ?_⟩
    obtain ⟨nm, s, hshape, _⟩ := h2 e he
    exact ⟨nm :: s, by simp, hshape⟩

theorem remote_filelist_ref_loop_abspath (root : List String) :
    ∀ (es : REntries) (p : List String) (l : List FileEntry),
      (names es).Nodup → "." ∉ names es → wfEntriesP es →
      remote_filelist_ref_loop root es p = .ok l →
      (l.map FileEntry.abspath).Nodup ∧
        ∀ e ∈ l, ∃ nm s, e.abspath = root ++ pdot p ++ (nm :: s) ∧ nm ∈ names es
  | .nil, p, l, _, _, _, h => by
    simp only [remote_filelist_ref_loop] at h
    cases h
    exact ⟨List.nodup_nil, fun e he => absurd he (List.not_mem_nil e)⟩
  | .cons name child rest, p, l, hnd, hdot, hsub, h => by
    simp only [remote_filelist_ref_loop] at h
    have hnd' := List.nodup_cons.mp (by simpa [names] using hnd)
    have hdot' : name ≠ "." ∧ "." ∉ names rest := by
      constructor
      · intro hcon; exact hdot (by simp [names, hcon])
      · intro hcon; exact hdot (by simp [names, hcon])
    have hpd : root ++ pdot (p ++ [name]) = root ++ pdot p ++ [name] := by
      rw [pdot_append, pdot_singleton hdot'.1, List.append_assoc]
    cases hc : remote_filelist_ref root child (p ++ [name]) with
    | ok files =>
      rw [hc] at h
      cases hr : remote_filelist_ref_loop root rest p with
      | ok lrest =>
        rw [hr] at h
        cases h
        obtain ⟨hcn, hcs⟩ := remote_filelist_ref_abspath root child (p ++ [name]) files hsub.1 hc
        obtain ⟨hrn, hrs⟩ :=
          remote_filelist_ref_loop_abspath root rest p lrest hnd'.2 hdot'.2 hsub.2 hr
        have hcshape : ∀ e ∈ files, ∃ s, e.abspath = root ++ pdot p ++ (name :: s) := by
          intro e he
          obtain ⟨s, _, hs⟩ := hcs e he
          refine ⟨s, ?_⟩
          rw [hs, hpd]
          simp [List.append_assoc]
        constructor
        · rw [List.map_append]
          refine hcn.append hrn ?_
          intro a ha hb
          obtain ⟨e1, he1, ha1⟩ := List.mem_map.mp ha
          obtain ⟨e2, he2, ha2⟩ := List.mem_map.mp hb
          obtain ⟨s1, hs1⟩ := hcshape e1 he1
          obtain ⟨nm2, s2, hs2, hnm2⟩ := hrs e2 he2
          have heq : root ++ pdot p ++ (name :: s1) = root ++ pdot p ++ (nm2 :: s2) := by
            rw [← hs1, ← hs2, ha1, ha2]
          have hcons : name :: s1 = nm2 :: s2 := List.append_cancel_left heq
          have hname : name = nm2 := (List.cons_eq_cons.mp hcons).1
          exact hnd'.1 (hname ▸ hnm2)
        · intro e he
          rcases List.mem_append.mp he with h1 | h2
          · obtain ⟨s, hs⟩ := hcshape e h1
            exact ⟨name, s, hs, by simp [names]⟩
          · obtain ⟨nm, s, hs, hnm⟩ := hrs e h2
            exact ⟨nm, s, hs, by simp [names, hnm]⟩
      | error err => rw [hr] at h; cases h
    | error err =>
      rw [hc] at h
      cases err with
      | transport => cases h
      | notADir =>
        cases hr : remote_filelist_ref_loop root rest p with
        | ok lrest =>
          rw [hr] at h
          cases h
          obtain ⟨hrn, hrs⟩ :=
            remote_filelist_ref_loop_abspath root rest p lrest hnd'.2 hdot'.2 hsub.2 hr
          constructor
          · rw [List.map_cons]
            refine List.nodup_cons.mpr ⟨?_, hrn⟩
            intro hmem
            obtain ⟨e2, he2, ha2⟩ := List.mem_map.mp hmem
            obtain ⟨nm2, s2, hs2, hnm2⟩ := hrs e2 he2
            have h1 : e2.abspath = root ++ pdot (p ++ [name]) := ha2
            have heq : root ++ pdot p ++ ([name] : List String) = root ++ pdot p ++ (nm2 :: s2) := by
              rw [← hpd, ← h1, hs2]
            have hcons : ([name] : List String) = nm2 :: s2 := List.append_cancel_left heq
            have hname : name = nm2 := (List.cons_eq_cons.mp hcons).1
            exact hnd'.1 (hname ▸ hnm2)
          · intro e he
            rcases List.mem_cons.mp he with h1 | h2
            · refine ⟨name, [], ?_, by simp [names]⟩
              rw [h1]
              exact hpd
            · obtain ⟨nm, s, hs, hnm⟩ := hrs e h2
              exact ⟨nm, s, hs, by simp [names, hnm]⟩
        | error err2 => rw [hr] at h; cases h

end

/-- Modelled from the spec: the supervisor spec filename
(`PluginDefaults.CSTDN_SPEC_FNAME`, defined outside the embedded source
file); a fixed filename constant referenced across the boundary (§6). -/
def CSTDN_SPEC_FNAME : String := "cstdn_spec.yaml"

/-- Modelled from the spec: the fixed standard-output capture filename
(`PluginDefaults.STDOUT_FNAME`, defined outside the embedded source file). -/
def STDOUT_FNAME : String := "aiida.out"

/-- Modelled from the spec: the fixed standard-error capture filename
(`PluginDefaults.STDERR_FNAME`, defined outside the embedded source file). -/
def STDERR_FNAME : String := "aiida.err"

/-- Modelled from the spec: the "continuation output" filename
(`VaspDefaults.FNAMES['contcar']`, defined outside the embedded source
file); the §8 scenario fixes it as `CONTCAR`. -/
def CONTCAR : String := "CONTCAR"

/-- Modelled from the spec: the "initial input" filename
(`VaspDefaults.FNAMES['poscar']`, defined outside the embedded source
file); the §8 scenario fixes it as `POSCAR`. -/
def POSCAR : String := "POSCAR"

/-- The remote folder supplied as `inputs.restart.folder`: the computer it
lives on, its absolute remote path (`get_remote_path()`) and the directory
tree reachable through its `listdir` transport. -/
structure RestartFolder where
  computer_uuid : String
  remote_path : List String
  tree : RNode

/-- One entry of `calcinfo.remote_copy_list`: the Python tuple
`(remote_comp_uuid, abspath, file_relpath)`. -/
structure CopyEntry where
  computer_uuid : String
  abspath : List String
  relpath : List String
deriving DecidableEq, Repr

/-- The local staging area (AiiDA sandbox folder) as the set of relative
directory paths that currently exist under `folder.abspath`, each stored in
`pdot`-normal form; the staging root itself always exists and is
represented by the empty segment list. -/
abbrev FS := List (List String)

/-- Embedding of `file_parent_folder.exists()` for the staging-relative
directory `p`: the root always exists, any other path exists when it was
recorded. -/
def existsDir (fs : FS) (p : List String) : Prop := pdot p = [] ∨ pdot p ∈ fs

instance instDecidableExistsDir (fs : FS) (p : List String) : Decidable (existsDir fs p) :=
  inferInstanceAs (Decidable (_ ∨ _))

/-- Embedding of `file_parent_folder.mkdir(parents=True)`: `pathlib`
creates the directory together with every missing intermediate segment and
raises `FileExistsError` exactly when the full target path already
exists. -/
def mkdir_parents (fs : FS) (p : List String) : Except Unit FS :=
  if existsDir fs p then .error ()
  else .ok ((pdot p).inits.filter (fun q => q ≠ []) ++ fs)

/-- One piece of a Python format string: literal text or a `{name}`
replacement field. A launcher command template
(`computer.get_mpirun_command()`) is a list of such format strings. -/
inductive FmtPiece : Type where
  | lit : String → FmtPiece
  | fieldRef : String → FmtPiece
deriving DecidableEq, Repr

/-- Error raised during resource negotiation and run-line composition: the
spec's ConfigurationError taxonomy. `missingField` embeds the `KeyError`
that `str.format` raises for a replacement field absent from the argument
dictionary, carrying the name of the missing field. -/
inductive ConfigError : Type where
  | missingField : String → ConfigError
  | underspecifiedResources : ConfigError
deriving DecidableEq, Repr

/-- Embedding of `arg.format(**mpi_arg_dict)`: replacement fields are
substituted left to right and the first field missing from the dictionary
raises a `KeyError` naming it. -/
def fmt (dict : String → Option Nat) : List FmtPiece → Except ConfigError String
  | [] => .ok ""
  | .lit s :: rest =>
    match fmt dict rest with
    | .ok r => .ok (s ++ r)
    | .error e => .error e
  | .fieldRef n :: rest =>
    match dict n with
    | none => .error (.missingField n)
    | some v =>
      match fmt dict rest with
      | .ok r => .ok (toString v ++ r)
      | .error e => .error e

/-- Embedding of the list comprehension
`[arg.format(**mpi_arg_dict) for arg in mpirun_command]`: the first
failing format aborts the whole composition. -/
def format_args (dict : String → Option Nat) : List (List FmtPiece) → Except ConfigError (List String)
  | [] => .ok []
  | t :: rest =>
    match fmt dict t with
    | .error e => .error e
    | .ok s =>
      match format_args dict rest with
      | .ok l => .ok (s :: l)
      | .error e => .error e

/-- The user-supplied `metadata.options.resources` dictionary, as consumed
by `scheduler.create_job_resource(**resources)`: a machine count, an
optional explicit per-node process count, and the slot into which
`vasp_calc_mpi_args` injects the computer default. -/
structure ResourcesDict where
  num_machines : Nat
  num_mpiprocs_per_machine : Option Nat
  default_mpiprocs_per_machine : Option Nat
deriving DecidableEq, Repr

/-- Modelled from the spec: the scheduler's resource descriptor
(`job_resource`, built by AiiDA's `scheduler.create_job_resource`, which is
outside the embedded source file). Per §4.1/§6 it carries the per-node
process count and every resource field, and its total process count follows
the scheduler's own allocation arithmetic. -/
structure JobResource where
  num_machines : Nat
  num_mpiprocs_per_machine : Nat
deriving DecidableEq, Repr

/-- Modelled from the spec: `job_resource.get_tot_num_mpiprocs()` — the
authoritative total process count computed by the scheduler abstraction
(§6) from machine count and per-node count. -/
def JobResource.get_tot_num_mpiprocs (jr : JobResource) : Nat :=
  jr.num_machines * jr.num_mpiprocs_per_machine

/-- Modelled from the spec: `job_resource.items()` — every field of the
resource descriptor as key/value pairs. -/
def JobResource.items (jr : JobResource) : List (String × Nat) :=
  [("num_machines", jr.num_machines),
   ("num_mpiprocs_per_machine", jr.num_mpiprocs_per_machine)]

/-- Modelled from the spec: `scheduler.create_job_resource(**resources)`
(AiiDA scheduler abstraction, outside the embedded source file): the
per-node process count is the explicit user value when one was supplied and
the declared default otherwise (§4.1: the default never overrides an
explicit user value); with neither, resource construction fails. -/
def create_job_resource (res : ResourcesDict) : Except ConfigError JobResource :=
  match res.num_mpiprocs_per_machine with
  | some u => .ok { num_machines := res.num_machines, num_mpiprocs_per_machine := u }
  | none =>
    match res.default_mpiprocs_per_machine with
    | some d => .ok { num_machines := res.num_machines, num_mpiprocs_per_machine := d }
    | none => .error .underspecifiedResources

/-- The target computer handle: its declared default per-node process count
(`get_default_mpiprocs_per_machine()`) and its launcher command template
(`get_mpirun_command()`). -/
structure Computer where
  default_mpiprocs_per_machine : Option Nat
  mpirun_command : List (List FmtPiece)

/-- The inputs of a `CalculationBase` process instance used by
`prepare_for_submission` and its helpers: the VASP code, its computer, the
scheduler options, the optional custodian code and the optional restart
folder. -/
structure CalcInputs where
  calc_uuid : String
  code_uuid : String
  code_execname : String
  computer : Computer
  withmpi : Bool
  resources : ResourcesDict
  mpirun_extra_params : List String
  submit_script_filename : String
  custodian_code_uuid : Option String
  restart_folder : Option RestartFolder
  contcar_to_poscar : Bool

/-- The two `resources` statements of `vasp_calc_mpi_args`: when the
computer declares a default per-node process count it is written into the
`default_mpiprocs_per_machine` key of the resources dictionary. -/
def inject_default_mpiprocs (computer : Computer) (res : ResourcesDict) : ResourcesDict :=
  match computer.default_mpiprocs_per_machine with
  | some d => { res with default_mpiprocs_per_machine := some d }
  | none => res

/-- The resource-descriptor construction step of `vasp_calc_mpi_args`:
`job_resource = scheduler.create_job_resource(**resources)` after the
default injection. -/
def vasp_calc_job_resource (inp : CalcInputs) : Except ConfigError JobResource :=
  create_job_resource (inject_default_mpiprocs inp.computer inp.resources)

/-- First-match lookup in an association list, embedding Python dictionary
access for the dictionaries built here (whose keys are distinct). -/
def dictLookup : List (String × Nat) → String → Option Nat
  | [], _ => none
  | (k, v) :: rest, key => if key = k then some v else dictLookup rest key

/-- The `mpi_arg_dict` of `vasp_calc_mpi_args`: it starts from
`{'tot_num_mpiprocs': tot_num_mpiprocs}` and then every item of the job
resource is assigned into it, so resource items take precedence. -/
def mpi_arg_dict (jr : JobResource) : String → Option Nat := fun key =>
  match dictLookup jr.items key with
  | some v => some v
  | none =>
    if key = "tot_num_mpiprocs" then some jr.get_tot_num_mpiprocs else none

/-- Embedding of `CalculationBase.vasp_calc_mpi_args`: build the job
resource, interpolate the launcher command template with the resource
fields, and return the interpolated launcher tokens together with the
user's `mpirun_extra_params`. -/
def vasp_calc_mpi_args (inp : CalcInputs) : Except ConfigError (List String × List String) :=
  match vasp_calc_job_resource inp with
  | .error e => .error e
  | .ok jr =>
    match format_args (mpi_arg_dict jr) inp.computer.mpirun_command with
    | .error e => .error e
    | .ok base => .ok (base, inp.mpirun_extra_params)

/-- Embedding of `CalculationBase.vasp_run_line`: with
`metadata.options.withmpi` the run line is launcher tokens, then the extra
MPI parameters, then the VASP executable; without it, the executable
alone. -/
def vasp_run_line (inp : CalcInputs) : Except ConfigError (List String) :=
  if inp.withmpi then
    match vasp_calc_mpi_args inp with
    | .error e => .error e
    | .ok (mpicmd, mpiextra) => .ok (mpicmd ++ mpiextra ++ [inp.code_execname])
  else
    .ok [inp.code_execname]

/-- Embedding of AiiDA's `CodeInfo` as populated by
`prepare_for_submission`: attributes left unset by the Python code stay
`none`. -/
structure CodeInfo where
  code_uuid : String
  cmdline_params : List String := []
  stdout_name : Option String := none
  stderr_name : Option String := none
  withmpi : Option Bool := none
deriving DecidableEq, Repr

/-- Embedding of `aiida.common.CodeRunMode`. -/
inductive CodeRunMode : Type where
  | SERIAL : CodeRunMode
  | PARALLEL : CodeRunMode
deriving DecidableEq, Repr

/-- Embedding of AiiDA's `CalcInfo` as populated by
`prepare_for_submission`. -/
structure CalcInfo where
  uuid : String
  codes_info : List CodeInfo
  local_copy_list : List CopyEntry
  remote_copy_list : List CopyEntry
  remote_symlink_list : List CopyEntry
  retrieve_temporary_list : List String
  codes_run_mode : CodeRunMode

/-- Modelled from the spec: AiiDA's engine (outside the embedded source
file) resolves the parallel-execution flag of a `CodeInfo` whose `withmpi`
attribute is unset to the calculation-level `metadata.options.withmpi`
request of the caller. -/
def effective_withmpi (ci : CodeInfo) (calc_withmpi : Bool) : Bool :=
  ci.withmpi.getD calc_withmpi

/-- Embedding of `CalculationBase.prepare_for_submission`. The
subclass-implemented hooks `create_inputs_for_restart_run` and
`create_inputs_for_regular_run` (which the base class leaves
unimplemented) are passed as functions finishing the `CalcInfo`. -/
def prepare_for_submission (inp : CalcInputs)
    (create_inputs_for_restart_run create_inputs_for_regular_run : CalcInfo → CalcInfo) : CalcInfo :=
  let codeinfo : CodeInfo :=
    match inp.custodian_code_uuid with
    | none =>
      { code_uuid := inp.code_uuid,
        stdout_name := some STDOUT_FNAME,
        stderr_name := some STDERR_FNAME }
    | some custodian_uuid =>
      { code_uuid := custodian_uuid,
        cmdline_params := ["run", CSTDN_SPEC_FNAME],
        withmpi := some false }
  let calcinfo : CalcInfo :=
    { uuid := inp.calc_uuid,
      codes_info := [codeinfo],
      local_copy_list := [],
      remote_copy_list := [],
      remote_symlink_list := [],
      retrieve_temporary_list := [],
      codes_run_mode := .SERIAL }
  match inp.restart_folder with
  | some _ => create_inputs_for_restart_run calcinfo
  | none => create_inputs_for_regular_run calcinfo

/-- Embedding of `CalculationBase.restart_files_exclude`: the fixed list of
filenames never copied from the remote restart folder. -/
def restart_files_exclude (inp : CalcInputs) : List String :=
  [inp.submit_script_filename, CSTDN_SPEC_FNAME, "job_tmpl.json", "calcinfo.json"]

/-- The `for name, abspath, relpath in self.remote_filelist(remote_data)`
loop of `restart_copy_remote`: skip excluded filenames, rename
continuation output to initial input when requested, append a remote-copy
entry, and pre-create the entry's parent directory in the staging area
unless it already exists. -/
def restart_copy_loop (excl : List String) (overwrite_poscar : Bool) (comp_uuid : String) :
    List FileEntry → FS → Except Unit (List CopyEntry × FS)
  | [], fs => .ok ([], fs)
  | e :: rest, fs =>
    if e.name ∈ excl then restart_copy_loop excl overwrite_poscar comp_uuid rest fs
    else
      match (if existsDir fs e.relpath then .ok fs else mkdir_parents fs e.relpath : Except Unit FS) with
      | .error err => .error err
      | .ok fs1 =>
        match restart_copy_loop excl overwrite_poscar comp_uuid rest fs1 with
        | .ok (l, fs2) =>
          .ok ({ computer_uuid := comp_uuid, abspath := e.abspath,
                 relpath := e.relpath ++
                   [if e.name = CONTCAR ∧ overwrite_poscar then POSCAR else e.name] } :: l, fs2)
        | .error err => .error err

/-- Failure of the restart synchronization: a remote listing error escaping
`remote_filelist`, or a `FileExistsError` from directory pre-creation. -/
inductive SyncError : Type where
  | remote : RErr → SyncError
  | mkdirExists : SyncError
deriving DecidableEq, Repr

/-- Embedding of `CalculationBase.restart_copy_remote` for the restart
folder `rf` supplied as `inputs.restart.folder`: list the remote tree, then
run the exclusion/rename/copy loop against the staging area `fs`, returning
the produced `remote_copy_list` and the staging area's directories. -/
def restart_copy_remote (inp : CalcInputs) (rf : RestartFolder) (fs : FS) :
    Except SyncError (List CopyEntry × FS) :=
  match remote_filelist rf.remote_path rf.tree ["."] with
  | .error e => .error (.remote e)
  | .ok filelist =>
    match restart_copy_loop (restart_files_exclude inp) inp.contcar_to_poscar
        rf.computer_uuid filelist fs with
    | .error _ => .error .mkdirExists
    | .ok r => .ok r

theorem mem_inits_iff (q l : List String) : q ∈ l.inits ↔ ∃ t, q ++ t = l :=
  List.mem_inits q l

/-- The per-entry exclusion and rename decision of the copy loop, used to
characterize the produced manifest as a pure function of the file list. -/
def manifest_entry (excl : List String) (flag : Bool) (uuid : String) (e : FileEntry) :
    Option CopyEntry :=
  if e.name ∈ excl then none
  else some { computer_uuid := uuid, abspath := e.abspath,
              relpath := e.relpath ++ [if e.name = CONTCAR ∧ flag then POSCAR else e.name] }

/-- The manifest the copy loop appends to `calcinfo.remote_copy_list`,
expressed as a per-entry filter and map over the traversal's file list. -/
def manifest_spec (excl : List String) (flag : Bool) (uuid : String)
    (fl : List FileEntry) : List CopyEntry :=
  fl.filterMap (manifest_entry excl flag uuid)

theorem existsDir_mono {fs1 fs2 : FS} (h : ∀ d ∈ fs1, d ∈ fs2) {p : List String}
    (hx : existsDir fs1 p) : existsDir fs2 p := by
  rcases hx with h1 | h2
  · exact Or.inl h1
  · exact Or.inr (h _ h2)

/-- A staging area is a meaningful filesystem state when every recorded
directory's nonempty ancestors are recorded as well. -/
def dirClosed (fs : FS) : Prop :=
  ∀ p ∈ fs, ∀ q, (∃ t, q ++ t = p) → q ≠ [] → q ∈ fs

theorem mkdir_parents_ok {fs : FS} {p : List String} (hx : ¬ existsDir fs p) :
    mkdir_parents fs p = .ok ((pdot p).inits.filter (fun q => q ≠ []) ++ fs) := by
  simp [mkdir_parents, hx]

theorem mkdir_parents_closed {fs : FS} {p : List String} (hc : dirClosed fs) :
    dirClosed ((pdot p).inits.filter (fun q => q ≠ []) ++ fs) := by
  intro d hd q hq hqne
  rcases List.mem_append.mp hd with h1 | h2
  · obtain ⟨hin, hne⟩ := List.mem_filter.mp h1
    obtain ⟨t1, ht1⟩ := (mem_inits_iff d (pdot p)).mp hin
    obtain ⟨t0, ht0⟩ := hq
    apply List.mem_append_left
    apply List.mem_filter.mpr
    refine ⟨(mem_inits_iff q (pdot p)).mpr ⟨t0 ++ t1, ?_⟩, by simpa using hqne⟩
    rw [← List.append_assoc, ht0, ht1]
  · exact List.mem_append_right _ (hc d h2 q hq hqne)

/-- The copy loop of `restart_copy_remote` never fails, its manifest is the
pure per-entry `manifest_spec`, the staging directories only grow, every
surviving entry's relative directory exists afterwards, and ancestor
closure of the staging area is preserved. -/
theorem restart_copy_loop_ok (excl : List String) (flag : Bool) (uuid : String) :
    ∀ (fl : List FileEntry) (fs : FS),
      ∃ fs2, restart_copy_loop excl flag uuid fl fs = .ok (manifest_spec excl flag uuid fl, fs2)
        ∧ (∀ d ∈ fs, d ∈ fs2)
        ∧ (∀ e ∈ fl, e.name ∉ excl → existsDir fs2 e.relpath)
        ∧ (dirClosed fs → dirClosed fs2)
  | [], fs =>
    ⟨fs, rfl, fun _ hd => hd, fun e he => absurd he (List.not_mem_nil e), fun hc => hc⟩
  | e :: rest, fs => by
    by_cases hex : e.name ∈ excl
    · have hstep : restart_copy_loop excl flag uuid (e :: rest) fs
          = restart_copy_loop excl flag uuid rest fs := by
        simp only [restart_copy_loop, if_pos hex]
      have hman : manifest_spec excl flag uuid (e :: rest) = manifest_spec excl flag uuid rest :=
        List.filterMap_cons_none (by simp [manifest_entry, hex])
      obtain ⟨fs2, hl, hmono, hdirs, hcl⟩ := restart_copy_loop_ok excl flag uuid rest fs
      refine ⟨fs2, by rw [hstep, hman, hl], hmono, ?_, hcl⟩
      intro e2 he2 hne
      rcases List.mem_cons.mp he2 with h1 | h2
      · exact absurd (h1 ▸ hex) hne
      · exact hdirs e2 h2 hne
    · have hguard : ∃ fs1,
          (if existsDir fs e.relpath then (.ok fs : Except Unit FS)
            else mkdir_parents fs e.relpath) = .ok fs1
          ∧ (∀ d ∈ fs, d ∈ fs1) ∧ existsDir fs1 e.relpath ∧ (dirClosed fs → dirClosed fs1) := by
        by_cases hx : existsDir fs e.relpath
        · exact ⟨fs, by rw [if_pos hx], fun _ hd => hd, hx, fun hc => hc⟩
        · refine ⟨(pdot e.relpath).inits.filter (fun q => q ≠ []) ++ fs, ?_, ?_, ?_, ?_⟩
          · rw [if_neg hx, mkdir_parents_ok hx]
          · intro d hd
            exact List.mem_append_right _ hd
          · have hne : pdot e.relpath ≠ [] := by
              intro hcon
              exact hx (Or.inl hcon)
            refine Or.inr (List.mem_append_left _ (List.mem_filter.mpr ⟨?_, by simpa using hne⟩))
            exact (mem_inits_iff _ _).mpr ⟨[], List.append_nil _⟩
          · exact fun hc => mkdir_parents_closed hc
      obtain ⟨fs1, hg, hmono1, hx1, hcl1⟩ := hguard
      obtain ⟨fs2, hl, hmono2, hdirs, hcl2⟩ := restart_copy_loop_ok excl flag uuid rest fs1
      have hfe : manifest_entry excl flag uuid e
          = some { computer_uuid := uuid, abspath := e.abspath,
                   relpath := e.relpath ++
                     [if e.name = CONTCAR ∧ flag then POSCAR else e.name] } := by
        simp [manifest_entry, hex]
      have hman : manifest_spec excl flag uuid (e :: rest)
          = { computer_uuid := uuid, abspath := e.abspath,
              relpath := e.relpath ++ [if e.name = CONTCAR ∧ flag then POSCAR else e.name] }
            :: manifest_spec excl flag uuid rest := by
        simp only [manifest_spec, List.filterMap_cons, hfe]
      refine ⟨fs2, ?_, fun d hd => hmono2 d (hmono1 d hd), ?_, fun hc => hcl2 (hcl1 hc)⟩
      · have hstep : restart_copy_loop excl flag uuid (e :: rest) fs
            = .ok ({ computer_uuid := uuid, abspath := e.abspath,
                     relpath := e.relpath ++
                       [if e.name = CONTCAR ∧ flag then POSCAR else e.name] }
                   :: manifest_spec excl flag uuid rest, fs2) := by
          simp only [restart_copy_loop, if_neg hex, hg, hl]
        rw [hstep, hman]
      · intro e2 he2 hne
        rcases List.mem_cons.mp he2 with h1 | h2
        · rw [h1]
          exact existsDir_mono hmono2 hx1
        · exact hdirs e2 h2 hne

theorem fmt_ok_of_all_present (dict : String → Option Nat) :
    ∀ (t : List FmtPiece), (∀ n, FmtPiece.fieldRef n ∈ t → (dict n).isSome) →
      ∃ s, fmt dict t = .ok s
  | [], _ => ⟨"", rfl⟩
  | .lit s :: rest, h => by
    obtain ⟨r, hr⟩ :=
      fmt_ok_of_all_present dict rest (fun n hn => h n (List.mem_cons_of_mem _ hn))
    exact ⟨s ++ r, by simp [fmt, hr]⟩
  | .fieldRef n :: rest, h => by
    obtain ⟨v, hv⟩ := Option.isSome_iff_exists.mp (h n (List.mem_cons_self _ _))
    obtain ⟨r, hr⟩ :=
      fmt_ok_of_all_present dict rest (fun m hm => h m (List.mem_cons_of_mem _ hm))
    exact ⟨toString v ++ r, by simp [fmt, hv, hr]⟩

theorem fmt_error_of_missing (dict : String → Option Nat) :
    ∀ (t : List FmtPiece), (∃ n, FmtPiece.fieldRef n ∈ t ∧ dict n = none) →
      ∃ f, fmt dict t = .error (.missingField f) ∧ FmtPiece.fieldRef f ∈ t ∧ dict f = none
  | [], h => by
    obtain ⟨n, hn, _⟩ := h
    cases hn
  | .lit s :: rest, h => by
    obtain ⟨n, hn, hnone⟩ := h
    have hn' : FmtPiece.fieldRef n ∈ rest := by
      rcases List.mem_cons.mp hn with h1 | h2
      · cases h1
      · exact h2
    obtain ⟨f, hf, hmem, hdict⟩ := fmt_error_of_missing dict rest ⟨n, hn', hnone⟩
    exact ⟨f, by simp [fmt, hf], List.mem_cons_of_mem _ hmem, hdict⟩
  | .fieldRef m :: rest, h => by
    cases hm : dict m with
    | none => exact ⟨m, by simp [fmt, hm], List.mem_cons_self _ _, hm⟩
    | some v =>
      obtain ⟨n, hn, hnone⟩ := h
      have hn' : FmtPiece.fieldRef n ∈ rest := by
        rcases List.mem_cons.mp hn with h1 | h2
        · injection h1 with h1
          rw [h1] at hnone
          rw [hnone] at hm
          cases hm
        · exact h2
      obtain ⟨f, hf, hmem, hdict⟩ := fmt_error_of_missing dict rest ⟨n, hn', hnone⟩
      exact ⟨f, by simp [fmt, hm, hf], List.mem_cons_of_mem _ hmem, hdict⟩

theorem format_args_error (dict : String → Option Nat) :
    ∀ (ts : List (List FmtPiece)),
      (∃ t ∈ ts, ∃ n, FmtPiece.fieldRef n ∈ t ∧ dict n = none) →
      ∃ f, format_args dict ts = .error (.missingField f)
        ∧ (∃ t ∈ ts, FmtPiece.fieldRef f ∈ t) ∧ dict f = none
  | [], h => by
    obtain ⟨t, ht, _⟩ := h
    cases ht
  | t0 :: rest, h => by
    by_cases h0 : ∃ n, FmtPiece.fieldRef n ∈ t0 ∧ dict n = none
    · obtain ⟨f, hf, hmem, hdict⟩ := fmt_error_of_missing dict t0 h0
      exact ⟨f, by simp [format_args, hf], ⟨t0, List.mem_cons_self _ _, hmem⟩, hdict⟩
    · have hall : ∀ n, FmtPiece.fieldRef n ∈ t0 → (dict n).isSome := by
        intro n hn
        by_contra hc
        exact h0 ⟨n, hn, Option.not_isSome_iff_eq_none.mp hc⟩
      obtain ⟨s, hs⟩ := fmt_ok_of_all_present dict t0 hall
      obtain ⟨t, ht, n, hn, hnone⟩ := h
      have ht' : t ∈ rest := by
        rcases List.mem_cons.mp ht with h1 | h2
        · exact absurd ⟨n, h1 ▸ hn, hnone⟩ h0
        · exact h2
      obtain ⟨f, hf, ⟨t2, ht2, hmem2⟩, hdict⟩ := format_args_error dict rest ⟨t, ht', n, hn, hnone⟩
      exact ⟨f, by simp [format_args, hs, hf], ⟨t2, List.mem_cons_of_mem _ ht2, hmem2⟩, hdict⟩

/-- A small remote tree used to evaluate the theorems on concrete input:
the restart scenario of spec §8, `{a/CONTCAR, a/OUTCAR, b/job_tmpl.json}`. -/
def sampleTree : RNode :=
  .dir (.cons "a" (.dir (.cons "CONTCAR" .file (.cons "OUTCAR" .file .nil)))
    (.cons "b" (.dir (.cons "job_tmpl.json" .file .nil)) .nil))

/-- A concrete restart folder holding `sampleTree`. -/
def sampleFolder : RestartFolder :=
  { computer_uuid := "remote-comp-uuid", remote_path := ["scratch", "prev"], tree := sampleTree }

/-- A concrete computer declaring a default per-node process count and the
usual `mpirun -np {tot_num_mpiprocs}` launcher template. -/
def sampleComputer : Computer :=
  { default_mpiprocs_per_machine := some 4,
    mpirun_command := [[.lit "mpirun"], [.lit "-np"], [.fieldRef "tot_num_mpiprocs"]] }

/-- A concrete set of calculation inputs used by the witnesses. -/
def sampleInputs : CalcInputs :=
  { calc_uuid := "calc-uuid",
    code_uuid := "vasp-code-uuid",
    code_execname := "vasp_std",
    computer := sampleComputer,
    withmpi := true,
    resources := { num_machines := 2, num_mpiprocs_per_machine := none,
                   default_mpiprocs_per_machine := none },
    mpirun_extra_params := ["--bind-to", "core"],
    submit_script_filename := "_aiidasubmit.sh",
    custodian_code_uuid := none,
    restart_folder := some sampleFolder,
    contcar_to_poscar := true }

/-- C1: during remote tree synchronization, a path whose listing fails with
the "not a directory" signal is recorded as a leaf file and the traversal
of its sibling paths continues; a transport-level listing failure anywhere
in the tree makes the whole `remote_filelist` call return the transport
error, so no partial file list is handed out, and a transport-free
directory always yields a complete `.ok` result. -/
theorem spec_c1 (root : List String) (t : RNode) (es : REntries) (p : List String) :
    (∀ name rest,
        remote_filelist_loop root (.cons name .file rest) p
          = match remote_filelist_loop root rest (pnorm p) with
            | .ok l => .ok ({ name := name, abspath := root ++ pdot (p ++ [name]),
                              relpath := pnorm p } :: l)
            | .error e => .error e)
    ∧ (hasTdir t = true → remote_filelist root t p = .error .transport)
    ∧ (hasTdirEntries es = false → ∃ l, remote_filelist root (.dir es) p = .ok l) := by
  refine ⟨fun name rest => rfl, remote_filelist_transport root t p, fun h => ?_⟩
  exact remote_filelist_loop_no_transport root es p h

theorem spec_c1_witness :
    (remote_filelist ["scratch", "prev"] (.dir (.cons "a" .tdir (.cons "b" .file .nil))) ["."]
      = .error .transport)
    ∧ ∃ l, remote_filelist ["scratch", "prev"]
        (.dir (.cons "x" .file (.cons "y" .file .nil))) ["."] = .ok l := by
  constructor
  · exact (spec_c1 ["scratch", "prev"] (.dir (.cons "a" .tdir (.cons "b" .file .nil)))
      .nil ["."]).2.1 rfl
  · exact (spec_c1 ["scratch", "prev"] .file
      (.cons "x" .file (.cons "y" .file .nil)) ["."]).2.2 rfl

/-- C10: the traversal of `remote_filelist`, which reassigns the `relpath`
loop variable mid-loop, produces exactly — hence in particular up to entry
ordering — the same result as the reference traversal whose
relative-directory computation is a pure per-entry function with no
cross-entry state; moreover every produced file entry carries its
containing directory's path in normal form, with no leading `./`
inconsistency (it is either the bare `["."]` or free of `"."` segments). -/
theorem spec_c10 (root : List String) (t : RNode) (p : List String) :
    remote_filelist root t p = remote_filelist_ref root t p
    ∧ ∀ l, remote_filelist root t p = .ok l →
        ∀ e ∈ l, e.relpath = pnorm e.relpath ∧ (e.relpath = ["."] ∨ "." ∉ e.relpath) := by
  refine ⟨remote_filelist_eq_ref root t p, fun l hl e he => ?_⟩
  have hl' : remote_filelist_ref root t p = .ok l := by
    rw [← remote_filelist_eq_ref root t p]
    exact hl
  have h1 := remote_filelist_ref_relpath_norm root t p l hl' e he
  refine ⟨h1, ?_⟩
  rw [h1]
  exact pnorm_shape e.relpath

theorem spec_c10_witness :
    ({ name := "CONTCAR", abspath := ["scratch", "prev", "a", "CONTCAR"],
       relpath := ["a"] } : FileEntry).relpath
        = pnorm ({ name := "CONTCAR", abspath := ["scratch", "prev", "a", "CONTCAR"],
                   relpath := ["a"] } : FileEntry).relpath
    ∧ (({ name := "CONTCAR", abspath := ["scratch", "prev", "a", "CONTCAR"],
          relpath := ["a"] } : FileEntry).relpath = ["."]
        ∨ "." ∉ ({ name := "CONTCAR", abspath := ["scratch", "prev", "a", "CONTCAR"],
                   relpath := ["a"] } : FileEntry).relpath) := by
  exact (spec_c10 ["scratch", "prev"] sampleTree ["."]).2
    [ { name := "CONTCAR", abspath := ["scratch", "prev", "a", "CONTCAR"], relpath := ["a"] },
      { name := "OUTCAR", abspath := ["scratch", "prev", "a", "OUTCAR"], relpath := ["a"] },
      { name := "job_tmpl.json", abspath := ["scratch", "prev", "b", "job_tmpl.json"],
        relpath := ["b"] } ]
    rfl _ (List.mem_cons_self _ _)

/-- C2: when the user resource request omits the per-node process count and
the computer declares a default, the job resource built by
`vasp_calc_mpi_args` carries that default as its per-node count; when the
user supplies the per-node count explicitly, the built job resource always
carries the user's value, never the computer default. -/
theorem spec_c2 (inp : CalcInputs) :
    (∀ d, inp.resources.num_mpiprocs_per_machine = none →
      inp.computer.default_mpiprocs_per_machine = some d →
      ∃ jr, vasp_calc_job_resource inp = .ok jr ∧ jr.num_mpiprocs_per_machine = d)
    ∧ (∀ u jr, inp.resources.num_mpiprocs_per_machine = some u →
      vasp_calc_job_resource inp = .ok jr → jr.num_mpiprocs_per_machine = u) := by
  constructor
  · intro d hnone hdef
    refine ⟨{ num_machines := inp.resources.num_machines, num_mpiprocs_per_machine := d }, ?_, rfl⟩
    simp [vasp_calc_job_resource, inject_default_mpiprocs, create_job_resource, hnone, hdef]
  · intro u jr hsome hok
    cases hdef : inp.computer.default_mpiprocs_per_machine with
    | none =>
      simp [vasp_calc_job_resource, inject_default_mpiprocs, create_job_resource,
        hsome, hdef] at hok
      rw [← hok]
    | some d =>
      simp [vasp_calc_job_resource, inject_default_mpiprocs, create_job_resource,
        hsome, hdef] at hok
      rw [← hok]

theorem spec_c2_witness :
    (∃ jr, vasp_calc_job_resource sampleInputs = .ok jr ∧ jr.num_mpiprocs_per_machine = 4)
    ∧ ∀ jr, vasp_calc_job_resource
        { sampleInputs with
          resources := { num_machines := 2, num_mpiprocs_per_machine := some 3,
                         default_mpiprocs_per_machine := none } } = .ok jr →
        jr.num_mpiprocs_per_machine = 3 := by
  constructor
  · exact (spec_c2 sampleInputs).1 4 rfl rfl
  · intro jr hok
    exact (spec_c2 _).2 3 jr rfl hok

/-- C3: with parallel execution requested the composed run line is exactly
the interpolated launcher tokens, then the user's extra launcher
parameters, then the binary name; without it, the run line is exactly the
binary name alone. -/
theorem spec_c3 (inp : CalcInputs) :
    (∀ base extra, inp.withmpi = true → vasp_calc_mpi_args inp = .ok (base, extra) →
      vasp_run_line inp = .ok (base ++ extra ++ [inp.code_execname]))
    ∧ (inp.withmpi = false → vasp_run_line inp = .ok [inp.code_execname]) := by
  constructor
  · intro base extra hmpi hargs
    simp [vasp_run_line, hmpi, hargs]
  · intro hmpi
    simp [vasp_run_line, hmpi]

theorem spec_c3_witness :
    vasp_run_line sampleInputs
      = .ok (["mpirun", "-np", "8"] ++ ["--bind-to", "core"] ++ ["vasp_std"])
    ∧ vasp_run_line { sampleInputs with withmpi := false } = .ok ["vasp_std"] := by
  constructor
  · exact (spec_c3 sampleInputs).1 ["mpirun", "-np", "8"] ["--bind-to", "core"] rfl rfl
  · exact (spec_c3 { sampleInputs with withmpi := false }).2 rfl

/-- C9: when some launcher template token references a replacement field
that is absent from the constructed resource dictionary, run-line
composition fails with the configuration error naming a missing,
actually-referenced field — the launcher is never silently omitted, since
`vasp_run_line` surfaces the same error instead of producing a command
vector, before any remote operation is involved. -/
theorem spec_c9 (inp : CalcInputs) (jr : JobResource)
    (hmpi : inp.withmpi = true)
    (hjr : vasp_calc_job_resource inp = .ok jr)
    (hmiss : ∃ t ∈ inp.computer.mpirun_command,
      ∃ n, FmtPiece.fieldRef n ∈ t ∧ mpi_arg_dict jr n = none) :
    ∃ f, mpi_arg_dict jr f = none
      ∧ (∃ t ∈ inp.computer.mpirun_command, FmtPiece.fieldRef f ∈ t)
      ∧ vasp_calc_mpi_args inp = .error (.missingField f)
      ∧ vasp_run_line inp = .error (.missingField f) := by
  obtain ⟨f, hf, hmem, hdict⟩ := format_args_error (mpi_arg_dict jr) inp.computer.mpirun_command hmiss
  have hargs : vasp_calc_mpi_args inp = .error (.missingField f) := by
    simp [vasp_calc_mpi_args, hjr, hf]
  refine ⟨f, hdict, hmem, hargs, ?_⟩
  simp [vasp_run_line, hmpi, hargs]

/-- A computer whose launcher template references a resource field that the
job resource does not provide. -/
def sampleBadComputer : Computer :=
  { default_mpiprocs_per_machine := some 4,
    mpirun_command := [[.lit "srun"], [.fieldRef "num_cores_per_machine"]] }

/-- Calculation inputs targeting `sampleBadComputer`. -/
def sampleBadInputs : CalcInputs := { sampleInputs with computer := sampleBadComputer }

theorem spec_c9_witness :
    ∃ f, mpi_arg_dict { num_machines := 2, num_mpiprocs_per_machine := 4 } f = none
      ∧ (∃ t ∈ sampleBadInputs.computer.mpirun_command, FmtPiece.fieldRef f ∈ t)
      ∧ vasp_calc_mpi_args sampleBadInputs = .error (.missingField f)
      ∧ vasp_run_line sampleBadInputs = .error (.missingField f) := by
  refine spec_c9 sampleBadInputs { num_machines := 2, num_mpiprocs_per_machine := 4 } rfl rfl ?_
  refine ⟨[.fieldRef "num_cores_per_machine"], ?_, "num_cores_per_machine", ?_, ?_⟩
  · exact List.mem_cons_of_mem _ (List.mem_cons_self _ _)
  · exact List.mem_cons_self _ _
  · rfl

/-- C4: when a custodian (supervisor) code is supplied, the plan built by
`prepare_for_submission` contains exactly one `CodeInfo` entry, it refers
to the custodian code, its command line is exactly the two tokens `run`
and the supervisor spec filename, and its parallel-execution flag is
forced off — whatever parallel request the caller made. -/
theorem spec_c4 (inp : CalcInputs) (hookRestart hookRegular : CalcInfo → CalcInfo)
    (cust : String)
    (hcust : inp.custodian_code_uuid = some cust)
    (hR : ∀ ci, (hookRestart ci).codes_info = ci.codes_info)
    (hG : ∀ ci, (hookRegular ci).codes_info = ci.codes_info) :
    ∃ e, (prepare_for_submission inp hookRestart hookRegular).codes_info = [e]
      ∧ e.code_uuid = cust
      ∧ e.cmdline_params = ["run", CSTDN_SPEC_FNAME]
      ∧ e.withmpi = some false
      ∧ ∀ req, effective_withmpi e req = false := by
  refine ⟨{ code_uuid := cust, cmdline_params := ["run", CSTDN_SPEC_FNAME],
            withmpi := some false }, ?_, rfl, rfl, rfl, fun req => rfl⟩
  cases hres : inp.restart_folder with
  | some rf => simp [prepare_for_submission, hcust, hres, hR]
  | none => simp [prepare_for_submission, hcust, hres, hG]

theorem spec_c4_witness :
    ∃ e, (prepare_for_submission
        { sampleInputs with custodian_code_uuid := some "cstdn-code-uuid" } id id).codes_info = [e]
      ∧ e.code_uuid = "cstdn-code-uuid"
      ∧ e.cmdline_params = ["run", CSTDN_SPEC_FNAME]
      ∧ e.withmpi = some false
      ∧ ∀ req, effective_withmpi e req = false :=
  spec_c4 { sampleInputs with custodian_code_uuid := some "cstdn-code-uuid" } id id
    "cstdn-code-uuid" rfl (fun _ => rfl) (fun _ => rfl)

/-- C5: when no custodian (supervisor) code is supplied, the plan built by
`prepare_for_submission` contains exactly one `CodeInfo` entry, it refers
to the VASP code with the standard-output and standard-error capture
filenames set, and its resolved parallel-execution flag equals whatever
parallel request the caller made. -/
theorem spec_c5 (inp : CalcInputs) (hookRestart hookRegular : CalcInfo → CalcInfo)
    (hcust : inp.custodian_code_uuid = none)
    (hR : ∀ ci, (hookRestart ci).codes_info = ci.codes_info)
    (hG : ∀ ci, (hookRegular ci).codes_info = ci.codes_info) :
    ∃ e, (prepare_for_submission inp hookRestart hookRegular).codes_info = [e]
      ∧ e.code_uuid = inp.code_uuid
      ∧ e.stdout_name = some STDOUT_FNAME
      ∧ e.stderr_name = some STDERR_FNAME
      ∧ ∀ req, effective_withmpi e req = req := by
  refine ⟨{ code_uuid := inp.code_uuid, stdout_name := some STDOUT_FNAME,
            stderr_name := some STDERR_FNAME }, ?_, rfl, rfl, rfl, fun req => rfl⟩
  cases hres : inp.restart_folder with
  | some rf => simp [prepare_for_submission, hcust, hres, hR]
  | none => simp [prepare_for_submission, hcust, hres, hG]

theorem spec_c5_witness :
    ∃ e, (prepare_for_submission sampleInputs id id).codes_info = [e]
      ∧ e.code_uuid = sampleInputs.code_uuid
      ∧ e.stdout_name = some STDOUT_FNAME
      ∧ e.stderr_name = some STDERR_FNAME
      ∧ ∀ req, effective_withmpi e req = req :=
  spec_c5 sampleInputs id id rfl (fun _ => rfl) (fun _ => rfl)

/-- Shared characterization of a successful restart synchronization: given
the remote listing, `restart_copy_remote` succeeds, its manifest is the
per-entry `manifest_spec` of the file list, the relative directory of every
surviving entry exists in the final staging area, and ancestor closure of
the staging area is preserved. -/
theorem restart_copy_remote_ok (inp : CalcInputs) (rf : RestartFolder) (fs : FS)
    (fl : List FileEntry)
    (hfl : remote_filelist rf.remote_path rf.tree ["."] = .ok fl) :
    ∃ fs2, restart_copy_remote inp rf fs
        = .ok (manifest_spec (restart_files_exclude inp) inp.contcar_to_poscar
            rf.computer_uuid fl, fs2)
      ∧ (∀ e ∈ fl, e.name ∉ restart_files_exclude inp → existsDir fs2 e.relpath)
      ∧ (dirClosed fs → dirClosed fs2) := by
  obtain ⟨fs2, hl, _, hdirs, hcl⟩ :=
    restart_copy_loop_ok (restart_files_exclude inp) inp.contcar_to_poscar rf.computer_uuid fl fs
  refine ⟨fs2, ?_, hdirs, hcl⟩
  simp [restart_copy_remote, hfl, hl]

/-- C6: every file entry surviving exclusion yields exactly one manifest
entry whose destination is the entry's relative directory joined with its
filename, except that a file named exactly the continuation-output name is
renamed to the initial-input name when the rename flag is enabled; all
other filenames pass through unchanged. -/
theorem spec_c6 (inp : CalcInputs) (rf : RestartFolder) (fs : FS) (fl : List FileEntry)
    (hfl : remote_filelist rf.remote_path rf.tree ["."] = .ok fl) :
    ∀ e ∈ fl, e.name ∉ restart_files_exclude inp →
      ∃ res, restart_copy_remote inp rf fs = .ok res
        ∧ ((e.name = CONTCAR ∧ inp.contcar_to_poscar = true) →
            ({ computer_uuid := rf.computer_uuid, abspath := e.abspath,
               relpath := e.relpath ++ [POSCAR] } : CopyEntry) ∈ res.1)
        ∧ (¬ (e.name = CONTCAR ∧ inp.contcar_to_poscar = true) →
            ({ computer_uuid := rf.computer_uuid, abspath := e.abspath,
               relpath := e.relpath ++ [e.name] } : CopyEntry) ∈ res.1) := by
  intro e he hex
  obtain ⟨fs2, heq, _, _⟩ := restart_copy_remote_ok inp rf fs fl hfl
  refine ⟨_, heq, ?_, ?_⟩
  · intro hren
    apply List.mem_filterMap.mpr
    refine ⟨e, he, ?_⟩
    rw [manifest_entry, if_neg hex, if_pos hren]
  · intro hren
    apply List.mem_filterMap.mpr
    refine ⟨e, he, ?_⟩
    rw [manifest_entry, if_neg hex, if_neg hren]

/-- The file list of `sampleTree` as returned by `remote_filelist`. -/
def sampleFilelist : List FileEntry :=
  [ { name := "CONTCAR", abspath := ["scratch", "prev", "a", "CONTCAR"], relpath := ["a"] },
    { name := "OUTCAR", abspath := ["scratch", "prev", "a", "OUTCAR"], relpath := ["a"] },
    { name := "job_tmpl.json", abspath := ["scratch", "prev", "b", "job_tmpl.json"],
      relpath := ["b"] } ]

theorem spec_c6_witness :
    ∃ res, restart_copy_remote sampleInputs sampleFolder [] = .ok res
      ∧ ({ computer_uuid := "remote-comp-uuid",
           abspath := ["scratch", "prev", "a", "CONTCAR"],
           relpath := ["a", POSCAR] } : CopyEntry) ∈ res.1 := by
  obtain ⟨res, heq, h1, h2⟩ :=
    spec_c6 sampleInputs sampleFolder [] sampleFilelist rfl
      { name := "CONTCAR", abspath := ["scratch", "prev", "a", "CONTCAR"], relpath := ["a"] }
      (List.mem_cons_self _ _) (by decide)
  exact ⟨res, heq, h1 ⟨rfl, rfl⟩⟩

/-- C7: a file whose filename is in the exclusion set contributes no entry
to the produced copy manifest, wherever it sits in the remote tree, while
a file whose filename is not excluded always contributes one — the
decision depends on the exact filename only, never on the path. -/
theorem spec_c7 (inp : CalcInputs) (rf : RestartFolder) (fs : FS) (fl : List FileEntry)
    (hwf : wfNode rf.tree)
    (hfl : remote_filelist rf.remote_path rf.tree ["."] = .ok fl) :
    ∀ e ∈ fl, ∀ res, restart_copy_remote inp rf fs = .ok res →
      (e.name ∈ restart_files_exclude inp → ∀ c ∈ res.1, c.abspath ≠ e.abspath)
      ∧ (e.name ∉ restart_files_exclude inp → ∃ c ∈ res.1, c.abspath = e.abspath) := by
  intro e he res hres
  obtain ⟨fs2, heq, _, _⟩ := restart_copy_remote_ok inp rf fs fl hfl
  rw [heq] at hres
  have hres' : res = (manifest_spec (restart_files_exclude inp) inp.contcar_to_poscar
      rf.computer_uuid fl, fs2) := by
    cases hres
    rfl
  subst hres'
  have hfl' : remote_filelist_ref rf.remote_path rf.tree ["."] = .ok fl := by
    rw [← remote_filelist_eq_ref]
    exact hfl
  have hnd : (fl.map FileEntry.abspath).Nodup :=
    (remote_filelist_ref_abspath rf.remote_path rf.tree ["."] fl hwf hfl').1
  constructor
  · intro hex c hc hceq
    obtain ⟨e2, he2, hsome⟩ := List.mem_filterMap.mp hc
    have he2x : e2.name ∉ restart_files_exclude inp := by
      intro hcon
      rw [manifest_entry, if_pos hcon] at hsome
      cases hsome
    have hca : c.abspath = e2.abspath := by
      rw [manifest_entry, if_neg he2x, Option.some.injEq] at hsome
      rw [← hsome]
    have heq2 : e2 = e :=
      List.inj_on_of_nodup_map hnd he2 he (by rw [← hca, hceq])
    rw [heq2] at he2x
    exact he2x hex
  · intro hex
    exact ⟨_, List.mem_filterMap.mpr ⟨e, he, by rw [manifest_entry, if_neg hex]⟩, rfl⟩

theorem sampleTree_wf : wfNode sampleTree := by
  simp [sampleTree, wfNode, wfEntriesP, names]

theorem spec_c7_witness :
    ({ computer_uuid := "remote-comp-uuid", abspath := ["scratch", "prev", "a", "CONTCAR"],
       relpath := ["a", "POSCAR"] } : CopyEntry).abspath
        ≠ ["scratch", "prev", "b", "job_tmpl.json"]
    ∧ ∃ c ∈ [({ computer_uuid := "remote-comp-uuid",
                abspath := ["scratch", "prev", "a", "CONTCAR"],
                relpath := ["a", "POSCAR"] } : CopyEntry),
             ({ computer_uuid := "remote-comp-uuid",
                abspath := ["scratch", "prev", "a", "OUTCAR"],
                relpath := ["a", "OUTCAR"] } : CopyEntry)],
        c.abspath = ["scratch", "prev", "a", "OUTCAR"] := by
  constructor
  · exact (spec_c7 sampleInputs sampleFolder [] sampleFilelist sampleTree_wf rfl
      { name := "job_tmpl.json", abspath := ["scratch", "prev", "b", "job_tmpl.json"],
        relpath := ["b"] }
      (by decide)
      ([ { computer_uuid := "remote-comp-uuid",
           abspath := ["scratch", "prev", "a", "CONTCAR"], relpath := ["a", "POSCAR"] },
         { computer_uuid := "remote-comp-uuid",
           abspath := ["scratch", "prev", "a", "OUTCAR"], relpath := ["a", "OUTCAR"] } ], [["a"]])
      rfl).1 (by decide)
      { computer_uuid := "remote-comp-uuid",
        abspath := ["scratch", "prev", "a", "CONTCAR"], relpath := ["a", "POSCAR"] }
      (List.mem_cons_self _ _)
  · exact (spec_c7 sampleInputs sampleFolder [] sampleFilelist sampleTree_wf rfl
      { name := "OUTCAR", abspath := ["scratch", "prev", "a", "OUTCAR"], relpath := ["a"] }
      (by decide)
      ([ { computer_uuid := "remote-comp-uuid",
           abspath := ["scratch", "prev", "a", "CONTCAR"], relpath := ["a", "POSCAR"] },
         { computer_uuid := "remote-comp-uuid",
           abspath := ["scratch", "prev", "a", "OUTCAR"], relpath := ["a", "OUTCAR"] } ], [["a"]])
      rfl).2 (by decide)

/-- C8: restart synchronization never fails on directory pre-creation —
in particular it raises no error when a directory already exists — and
when it hands the manifest off, every nonempty ancestor (hence the full
path with all intermediate segments) of every manifest entry's relative
destination directory exists in the staging area. -/
theorem spec_c8 (inp : CalcInputs) (rf : RestartFolder) (fs : FS) (fl : List FileEntry)
    (hclosed : dirClosed fs)
    (hfl : remote_filelist rf.remote_path rf.tree ["."] = .ok fl) :
    ∃ res, restart_copy_remote inp rf fs = .ok res
      ∧ ∀ c ∈ res.1, ∀ q, (∃ tail, q ++ tail = pdot c.relpath.dropLast) → q ≠ [] →
          q ∈ res.2 := by
  obtain ⟨fs2, heq, hdirs, hcl⟩ := restart_copy_remote_ok inp rf fs fl hfl
  refine ⟨_, heq, ?_⟩
  intro c hc q hq hqne
  obtain ⟨e2, he2, hsome⟩ := List.mem_filterMap.mp hc
  have he2x : e2.name ∉ restart_files_exclude inp := by
    intro hcon
    rw [manifest_entry, if_pos hcon] at hsome
    cases hsome
  have hcr : c.relpath = e2.relpath
      ++ [if e2.name = CONTCAR ∧ inp.contcar_to_poscar then POSCAR else e2.name] := by
    rw [manifest_entry, if_neg he2x, Option.some.injEq] at hsome
    rw [← hsome]
  have hdl : c.relpath.dropLast = e2.relpath := by
    rw [hcr]
    simp
  obtain ⟨tail, ht⟩ := hq
  rw [hdl] at ht
  rcases hdirs e2 he2 he2x with h0 | h1
  · rw [h0] at ht
    exact absurd (List.append_eq_nil.mp ht).1 hqne
  · exact hcl hclosed _ h1 q ⟨tail, ht⟩ hqne

/-- The manifest produced for `sampleTree` with the sample inputs. -/
def sampleManifest : List CopyEntry :=
  [ { computer_uuid := "remote-comp-uuid",
      abspath := ["scratch", "prev", "a", "CONTCAR"], relpath := ["a", "POSCAR"] },
    { computer_uuid := "remote-comp-uuid",
      abspath := ["scratch", "prev", "a", "OUTCAR"], relpath := ["a", "OUTCAR"] } ]

theorem spec_c8_witness :
    ∃ res, restart_copy_remote sampleInputs sampleFolder [] = .ok res ∧ ["a"] ∈ res.2 := by
  obtain ⟨res, heq, hprop⟩ :=
    spec_c8 sampleInputs sampleFolder [] sampleFilelist
      (fun p hp => absurd hp (List.not_mem_nil p)) rfl
  have hcalc : restart_copy_remote sampleInputs sampleFolder []
      = .ok (sampleManifest, [["a"]]) := rfl
  rw [heq] at hcalc
  injection hcalc with hres
  refine ⟨res, heq, ?_⟩
  exact hprop
    { computer_uuid := "remote-comp-uuid",
      abspath := ["scratch", "prev", "a", "CONTCAR"], relpath := ["a", "POSCAR"] }
    (by rw [hres]; exact List.mem_cons_self _ _) ["a"] ⟨[], rfl⟩ (by simp)

end CalcBase
